import Mathlib

/-!
Verification of the STRIPS/PDDL-style planner described by the repository's
planning notebook.  The notebook (`planning.ipynb`) imports the planner from
the module `planning`; the module itself is not part of the repository
snapshot, so the action/state engine, the `PDDL` problem container, the
planning-graph builder and the `plan` entry point are modelled from the
specification, while the concrete problems (air cargo, spare tire) follow the
notebook's construction and recorded behaviour.
-/

deriving instance DecidableEq for Except

namespace Planning

/-- Modelled from the spec: a ground literal of the planner (the `Expr`
values of `planning.py`, which is not in the repository snapshot): a
predicate symbol with an ordered argument list, plus a polarity flag so that
a negative literal is represented as a separate tagged literal rather than a
logical NOT. -/
structure Literal where
  pred : String
  args : List String
  neg : Bool
deriving DecidableEq

/-- Convenience constructor for a positive ground literal. -/
def lit (p : String) (a : List String) : Literal := ⟨p, a, false⟩

/-- Modelled from the spec: two literals are complementary when they share
predicate and arguments but differ in polarity. -/
def complementary (p q : Literal) : Bool :=
  decide (p.pred = q.pred ∧ p.args = q.args ∧ p.neg ≠ q.neg)

/-- Modelled from the spec: the `Action` class of `planning.py` (not in the
repository snapshot): a named operator with positive preconditions, negative
preconditions, add effects and delete effects. -/
structure Action where
  name : Literal
  precond_pos : Finset Literal
  precond_neg : Finset Literal
  effect_add : Finset Literal
  effect_rem : Finset Literal
deriving DecidableEq

/-- Modelled from the spec: error taxonomy of the action/state engine. -/
inductive PlanError where
  | inapplicable
deriving DecidableEq

/-- Modelled from the spec: `is_applicable(state, action)` for a ground
action — true iff every literal of `precond_pos` is a member of the state and
no literal of `precond_neg` is a member of the state. -/
def is_applicable (s : Finset Literal) (a : Action) : Bool :=
  decide (a.precond_pos ⊆ s) && decide (∀ l ∈ a.precond_neg, l ∉ s)

/-- The new state produced by an action's effects:
`(old state − effect_rem) ∪ effect_add`. -/
def applyEffect (s : Finset Literal) (a : Action) : Finset Literal :=
  (s \ a.effect_rem) ∪ a.effect_add

/-- Modelled from the spec: `apply(state, action)` — signals
`InapplicableActionError` when `is_applicable` is false, otherwise returns
the new state `(state − effect_rem) ∪ effect_add`. -/
def applyA (s : Finset Literal) (a : Action) : Except PlanError (Finset Literal) :=
  if is_applicable s a then .ok (applyEffect s a) else .error .inapplicable

/-- Sequential execution of ground actions from a state; an inapplicable
action's error propagates uncaught to the caller. -/
def execSeq (s : Finset Literal) : List Action → Except PlanError (Finset Literal)
  | [] => .ok s
  | a :: rest =>
    match applyA s a with
    | .ok s₁ => execSeq s₁ rest
    | .error e => .error e

/-- Modelled from the spec: the problem container (the `PDDL` class of
`planning.py`, not in the repository snapshot) as consumed by the planner:
initial state, action library and a goal given by positive and negative
goal literals. -/
structure Problem where
  initial : Finset Literal
  actions : List Action
  goal_pos : Finset Literal
  goal_neg : Finset Literal

/-- Modelled from the spec: `goal_test(state)` — the goal's positive
literals are members of the state and none of its negative literals are. -/
def goal_test (P : Problem) (s : Finset Literal) : Bool :=
  decide (P.goal_pos ⊆ s) && decide (∀ l ∈ P.goal_neg, l ∉ s)

/-- Modelled from the spec: the stateful `PDDL` problem object of
`planning.py` (not in the repository snapshot), as used by the notebook: it
owns a knowledge base of ground literals, its action library and goal
literals; `act` updates the object's own knowledge base (explicit state
passing renders the in-place mutation). -/
structure PDDL where
  kb : Finset Literal
  actions : List Action
  goal_pos : Finset Literal
  goal_neg : Finset Literal
deriving DecidableEq

/-- Modelled from the spec: `goal_test()` of the problem object, reading the
object's current knowledge base. -/
def PDDL.goalTest (o : PDDL) : Bool :=
  decide (o.goal_pos ⊆ o.kb) && decide (∀ l ∈ o.goal_neg, l ∉ o.kb)

/-- Modelled from the spec: `act(ground_action)` on the problem object —
applies the action to the object's knowledge base and stores the result back
into the object (state-passing translation of the in-place update). -/
def PDDL.act (o : PDDL) (a : Action) : Except PlanError PDDL :=
  match applyA o.kb a with
  | .ok s => .ok { o with kb := s }
  | .error e => .error e

/-- Acting on each action of a list in turn, threading the updated object. -/
def actSeq (o : PDDL) : List Action → Except PlanError PDDL
  | [] => .ok o
  | a :: rest =>
    match o.act a with
    | .ok o₁ => actSeq o₁ rest
    | .error e => .error e

/-- Modelled from the spec: the implicit persistence (no-op) action of the
planning-graph builder — one per literal, carrying that literal as both its
sole precondition and its sole add-effect. -/
def noop (l : Literal) : Action :=
  ⟨⟨"Persist", l.pred :: l.args, l.neg⟩, {l}, ∅, {l}, ∅⟩

/-- Modelled from the spec: inconsistent effects — one action's add-effect
is the other's delete-effect target. -/
def inconsistentEffects (a b : Action) : Bool :=
  decide ((a.effect_add ∩ b.effect_rem).Nonempty) ||
    decide ((b.effect_add ∩ a.effect_rem).Nonempty)

/-- Modelled from the spec: interference — one action deletes a
precondition of the other. -/
def interference (a b : Action) : Bool :=
  decide ((a.effect_rem ∩ b.precond_pos).Nonempty) ||
    decide ((b.effect_rem ∩ a.precond_pos).Nonempty)

/-- Modelled from the spec: competing needs — the two actions have
mutually-mutex preconditions at the level's literal-mutex relation. -/
def competingNeeds (mux : Finset (Literal × Literal)) (a b : Action) : Bool :=
  decide (∃ p ∈ a.precond_pos, ∃ q ∈ b.precond_pos, (p, q) ∈ mux)

/-- Modelled from the spec: two (distinct) actions at a level are mutex if
they have inconsistent effects, interfere, or have competing needs. -/
def actMutex (mux : Finset (Literal × Literal)) (a b : Action) : Bool :=
  decide (a ≠ b) &&
    (inconsistentEffects a b || interference a b || competingNeeds mux a b)

/-- Modelled from the spec: one level of the planning graph — the state
layer's literals together with the mutex pairs among them. -/
@[ext]
structure GLevel where
  lits : Finset Literal
  mux : Finset (Literal × Literal)
deriving DecidableEq

/-- Modelled from the spec: an action enters a level's action layer when its
preconditions are fully present in the state layer and are mutually
non-mutex. -/
def preOK (L : GLevel) (a : Action) : Bool :=
  decide (a.precond_pos ⊆ L.lits) &&
    decide (∀ p ∈ a.precond_pos, ∀ q ∈ a.precond_pos, (p, q) ∉ L.mux)

/-- Modelled from the spec: the action layer over a state layer — every
ground action of the problem plus one persistence action per literal, kept
when its preconditions are present and mutually non-mutex. -/
def actionLayer (P : Problem) (L : GLevel) : Finset Action :=
  (P.actions.toFinset ∪ L.lits.image noop).filter (fun a => preOK L a = true)

/-- Modelled from the spec: two (distinct) literals of the next state layer
are mutex when they are direct negations of each other or every pair of
actions achieving them in the preceding action layer is mutex. -/
def litMutexNext (A : Finset Action) (mux : Finset (Literal × Literal))
    (p q : Literal) : Bool :=
  decide (p ≠ q) && (complementary p q ||
    decide (∀ a ∈ A, p ∈ a.effect_add → ∀ b ∈ A, q ∈ b.effect_add →
      actMutex mux a b = true))

/-- Modelled from the spec: one growth step of the planning graph — the next
state layer is the union of the add-effects of the action layer, annotated
with the literal-mutex pairs derived from the action layer's mutexes. -/
def nextLevel (P : Problem) (L : GLevel) : GLevel :=
  ⟨(actionLayer P L).biUnion Action.effect_add,
   ((actionLayer P L).biUnion Action.effect_add ×ˢ
       (actionLayer P L).biUnion Action.effect_add).filter
     (fun pq => litMutexNext (actionLayer P L) L.mux pq.1 pq.2 = true)⟩

/-- Modelled from the spec: level 0 of the planning graph — the initial
state's literals; only direct negations can be mutex there. -/
def level0 (P : Problem) : GLevel :=
  ⟨P.initial, (P.initial ×ˢ P.initial).filter (fun pq => complementary pq.1 pq.2 = true)⟩

/-- The planning graph's level `n`. -/
def levelAt (P : Problem) : Nat → GLevel
  | 0 => level0 P
  | n + 1 => nextLevel P (levelAt P n)

/-- The action layer between state layers `n` and `n + 1`. -/
def actionLayerAt (P : Problem) (n : Nat) : Finset Action :=
  actionLayer P (levelAt P n)

/-- Modelled from the spec: the graph has leveled off at `n` when the next
level is identical in literal and mutex content. -/
def leveledOff (P : Problem) (n : Nat) : Prop :=
  levelAt P (n + 1) = levelAt P n

/-- The finite universe of ground literals the builder can ever reach: the
initial state plus every action's add-effects. -/
def Ulits (P : Problem) : Finset Literal :=
  P.initial ∪ P.actions.foldr (fun a s => a.effect_add ∪ s) ∅

/-- Fuel sufficient for the builder to reach goal-satisfaction or level off,
derived from the size of the literal universe. -/
def buildFuel (P : Problem) : Nat :=
  (Ulits P).card + (Ulits P).card * (Ulits P).card + 1

/-- Modelled from the spec: the builder's success condition — all positive
goal literals appear in the state layer and are pairwise non-mutex. -/
def goalSat (P : Problem) (L : GLevel) : Bool :=
  decide (P.goal_pos ⊆ L.lits) &&
    decide (∀ p ∈ P.goal_pos, ∀ q ∈ P.goal_pos, (p, q) ∉ L.mux)

/-- Scan the graph levels from `k` for the first level satisfying the goal
condition, giving up after `fuel` further levels. -/
def scanGoal (P : Problem) : Nat → Nat → Option Nat
  | k, 0 => if goalSat P (levelAt P k) then some k else none
  | k, fuel + 1 => if goalSat P (levelAt P k) then some k else scanGoal P (k + 1) fuel

/-- First `some` value of `f` along a list, in list order. -/
def firstSome {α β : Type} (f : α → Option β) : List α → Option β
  | [] => none
  | x :: xs =>
    match f x with
    | some y => some y
    | none => firstSome f xs

/-- Modelled from the spec: the solution extraction of `plan` — a
deterministic depth-bounded search over the problem's ground actions that
yields a complete, verified-applicable sequence or nothing. -/
def dfs (P : Problem) : Nat → Finset Literal → Option (List Action)
  | 0, s => if goal_test P s then some [] else none
  | fuel + 1, s =>
    if goal_test P s then some []
    else
      firstSome
        (fun a =>
          if is_applicable s a then (dfs P fuel (applyEffect s a)).map (a :: ·)
          else none)
        P.actions

/-- Modelled from the spec: `plan(problem)` — grow the planning graph until
the goal literals appear pairwise non-mutex (giving up once the graph must
have leveled off), then extract and return a verified action sequence;
`none` renders `PlanNotFound`. -/
def plan (P : Problem) : Option (List Action) :=
  match scanGoal P 0 (buildFuel P) with
  | none => none
  | some n => dfs P (n * P.actions.length) P.initial

section SpareTire

/-- `At(Flat, Axle)`. -/
def flatAxle : Literal := lit "At" ["Flat", "Axle"]

/-- `At(Spare, Trunk)`. -/
def spareTrunk : Literal := lit "At" ["Spare", "Trunk"]

/-- `At(Flat, Ground)`. -/
def flatGround : Literal := lit "At" ["Flat", "Ground"]

/-- `At(Spare, Ground)`. -/
def spareGround : Literal := lit "At" ["Spare", "Ground"]

/-- `At(Spare, Axle)`. -/
def spareAxle : Literal := lit "At" ["Spare", "Axle"]

/-- Modelled from the spec: the ground action `Remove(Flat, Axle)` of the
spare-tire problem (`spare_tire()` of `planning.py` is not in the repository
snapshot). -/
def removeFlat : Action :=
  ⟨lit "Remove" ["Flat", "Axle"], {flatAxle}, ∅, {flatGround}, {flatAxle}⟩

/-- Modelled from the spec: the ground action `Remove(Spare, Trunk)` of the
spare-tire problem. -/
def removeSpare : Action :=
  ⟨lit "Remove" ["Spare", "Trunk"], {spareTrunk}, ∅, {spareGround}, {spareTrunk}⟩

/-- Modelled from the spec: the ground action `PutOn(Spare, Axle)` of the
spare-tire problem: the spare must be on the ground and the flat must not be
on the axle. -/
def putOnSpare : Action :=
  ⟨lit "PutOn" ["Spare", "Axle"], {spareGround}, {flatAxle}, {spareAxle}, {spareGround}⟩

/-- Modelled from the spec: the spare-tire planning problem — initial facts
`At(Flat,Axle)` and `At(Spare,Trunk)`, goal `At(Spare,Axle)` and
`¬At(Flat,Axle)`. -/
def spareTire : Problem :=
  ⟨{flatAxle, spareTrunk}, [removeFlat, removeSpare, putOnSpare], {spareAxle}, {flatAxle}⟩

/-- The notebook's three-action solution for the spare-tire problem. -/
def spareSolution : List Action := [removeFlat, removeSpare, putOnSpare]

/-- Modelled from the spec: the spare-tire problem as the stateful notebook
object `spare_tire = spare_tire()`. -/
def spareTireObj : PDDL :=
  ⟨{flatAxle, spareTrunk}, [removeFlat, removeSpare, putOnSpare], {spareAxle}, {flatAxle}⟩

end SpareTire

section AirCargo

/-- `At(C1, SFO)`. -/
def c1SFO : Literal := lit "At" ["C1", "SFO"]

/-- `At(C2, JFK)`. -/
def c2JFK : Literal := lit "At" ["C2", "JFK"]

/-- `At(P1, SFO)`. -/
def p1SFO : Literal := lit "At" ["P1", "SFO"]

/-- `At(P2, JFK)`. -/
def p2JFK : Literal := lit "At" ["P2", "JFK"]

/-- `In(C1, P1)`. -/
def c1InP1 : Literal := lit "In" ["C1", "P1"]

/-- `In(C2, P2)`. -/
def c2InP2 : Literal := lit "In" ["C2", "P2"]

/-- `At(P1, JFK)`. -/
def p1JFK : Literal := lit "At" ["P1", "JFK"]

/-- `At(C1, JFK)`. -/
def c1JFK : Literal := lit "At" ["C1", "JFK"]

/-- `At(P2, SFO)`. -/
def p2SFO : Literal := lit "At" ["P2", "SFO"]

/-- `At(C2, SFO)`. -/
def c2SFO : Literal := lit "At" ["C2", "SFO"]

/-- Modelled from the spec: ground `Load(C1, P1, SFO)` of the air-cargo
problem (`air_cargo()` of `planning.py` is not in the repository
snapshot). -/
def loadC1 : Action :=
  ⟨lit "Load" ["C1", "P1", "SFO"], {c1SFO, p1SFO}, ∅, {c1InP1}, {c1SFO}⟩

/-- Modelled from the spec: ground `Fly(P1, SFO, JFK)`. -/
def flyP1 : Action :=
  ⟨lit "Fly" ["P1", "SFO", "JFK"], {p1SFO}, ∅, {p1JFK}, {p1SFO}⟩

/-- Modelled from the spec: ground `Unload(C1, P1, JFK)`. -/
def unloadC1 : Action :=
  ⟨lit "Unload" ["C1", "P1", "JFK"], {c1InP1, p1JFK}, ∅, {c1JFK}, {c1InP1}⟩

/-- Modelled from the spec: ground `Load(C2, P2, JFK)`. -/
def loadC2 : Action :=
  ⟨lit "Load" ["C2", "P2", "JFK"], {c2JFK, p2JFK}, ∅, {c2InP2}, {c2JFK}⟩

/-- Modelled from the spec: ground `Fly(P2, JFK, SFO)`. -/
def flyP2 : Action :=
  ⟨lit "Fly" ["P2", "JFK", "SFO"], {p2JFK}, ∅, {p2SFO}, {p2JFK}⟩

/-- Modelled from the spec: ground `Unload(C2, P2, SFO)`. -/
def unloadC2 : Action :=
  ⟨lit "Unload" ["C2", "P2", "SFO"], {c2InP2, p2SFO}, ∅, {c2SFO}, {c2InP2}⟩

/-- Modelled from the spec: the air-cargo problem as the stateful notebook
object `airCargo = air_cargo()` — cargo `C1` at `SFO` and `C2` at `JFK`,
planes `P1` at `SFO` and `P2` at `JFK`; goal `At(C1,JFK)` and
`At(C2,SFO)`. -/
def airCargoObj : PDDL :=
  ⟨{c1SFO, c2JFK, p1SFO, p2JFK},
   [loadC1, flyP1, unloadC1, loadC2, flyP2, unloadC2],
   {c1JFK, c2SFO}, ∅⟩

/-- The six-action solution the notebook acts on. -/
def airCargoSolution : List Action :=
  [loadC1, flyP1, unloadC1, loadC2, flyP2, unloadC2]

end AirCargo

/-- Whether an execution outcome reached a goal state: a failed execution
never counts as reaching the goal. -/
def execGoal (P : Problem) (r : Except PlanError (Finset Literal)) : Bool :=
  match r with
  | .ok s => goal_test P s
  | .error _ => false

/-- The non-mutex pairs of a level's state layer, used as a growth measure
for the builder's termination. -/
def nonMux (P : Problem) (n : Nat) : Finset (Literal × Literal) :=
  ((levelAt P n).lits ×ˢ (levelAt P n).lits) \ (levelAt P n).mux

/-- A ground action whose add-effect never produces the goal literal `G`. -/
def unsolvableAct : Action :=
  ⟨lit "Step" [], {lit "A" []}, ∅, {lit "B" []}, ∅⟩

/-- An unsolvable problem: its goal literal `G` is not initially true and is
never any action's add-effect. -/
def unsolvable : Problem :=
  ⟨{lit "A" []}, [unsolvableAct], {lit "G" []}, ∅⟩

section StateEngine

theorem is_applicable_iff (s : Finset Literal) (a : Action) :
    is_applicable s a = true ↔
      ((∀ l ∈ a.precond_pos, l ∈ s) ∧ (∀ l ∈ a.precond_neg, l ∉ s)) := by
  simp [is_applicable, Finset.subset_iff]

theorem applyA_of_applicable (s : Finset Literal) (a : Action)
    (h : is_applicable s a = true) :
    applyA s a = .ok (applyEffect s a) := by
  simp [applyA, h]

theorem mem_applyEffect (s : Finset Literal) (a : Action) (l : Literal) :
    l ∈ applyEffect s a ↔ (l ∈ s ∧ l ∉ a.effect_rem) ∨ l ∈ a.effect_add := by
  simp [applyEffect, Finset.mem_union, Finset.mem_sdiff]

theorem applyA_error_iff (s : Finset Literal) (a : Action) :
    applyA s a = .error .inapplicable ↔ is_applicable s a = false := by
  rcases h : is_applicable s a <;> simp [applyA, h]

theorem execSeq_error_head (s : Finset Literal) (a : Action) (rest : List Action)
    (h : is_applicable s a = false) :
    execSeq s (a :: rest) = .error .inapplicable := by
  simp [execSeq, applyA, h]

end StateEngine

section GraphLemmas

variable (P : Problem)

theorem complementary_comm (p q : Literal) : complementary p q = complementary q p := by
  unfold complementary
  rw [decide_eq_decide]
  constructor <;> rintro ⟨h1, h2, h3⟩ <;> exact ⟨h1.symm, h2.symm, h3.symm⟩

theorem complementary_ne {p q : Literal} (h : complementary p q = true) : p ≠ q := by
  rcases of_decide_eq_true h with ⟨h1, h2, h3⟩
  intro hpq
  subst hpq
  exact h3 rfl

theorem complementary_self (p : Literal) : complementary p p = false := by
  simp [complementary]

theorem preOK_iff (L : GLevel) (a : Action) :
    preOK L a = true ↔
      (a.precond_pos ⊆ L.lits ∧
        ∀ p ∈ a.precond_pos, ∀ q ∈ a.precond_pos, (p, q) ∉ L.mux) := by
  simp [preOK]

theorem mem_actionLayer {L : GLevel} {a : Action} :
    a ∈ actionLayer P L ↔
      ((a ∈ P.actions ∨ ∃ l ∈ L.lits, noop l = a) ∧ preOK L a = true) := by
  simp [actionLayer, Finset.mem_filter, Finset.mem_union, List.mem_toFinset,
    Finset.mem_image]

theorem litMutexNext_iff (A : Finset Action) (m : Finset (Literal × Literal))
    (p q : Literal) :
    litMutexNext A m p q = true ↔
      (p ≠ q ∧ (complementary p q = true ∨
        ∀ a ∈ A, p ∈ a.effect_add → ∀ b ∈ A, q ∈ b.effect_add →
          actMutex m a b = true)) := by
  simp [litMutexNext]

theorem mem_lits_next {L : GLevel} {l : Literal} :
    l ∈ (nextLevel P L).lits ↔ ∃ a ∈ actionLayer P L, l ∈ a.effect_add := by
  simp [nextLevel, Finset.mem_biUnion]

theorem mem_mux_next {L : GLevel} {p q : Literal} :
    (p, q) ∈ (nextLevel P L).mux ↔
      (p ∈ (nextLevel P L).lits ∧ q ∈ (nextLevel P L).lits ∧
        litMutexNext (actionLayer P L) L.mux p q = true) := by
  constructor
  · intro h
    have h1 := Finset.mem_filter.mp h
    have h2 := Finset.mem_product.mp h1.1
    exact ⟨h2.1, h2.2, h1.2⟩
  · rintro ⟨hp, hq, hm⟩
    exact Finset.mem_filter.mpr ⟨Finset.mem_product.mpr ⟨hp, hq⟩, hm⟩

theorem mem_mux_zero {p q : Literal} :
    (p, q) ∈ (level0 P).mux ↔
      (p ∈ P.initial ∧ q ∈ P.initial ∧ complementary p q = true) := by
  constructor
  · intro h
    have h1 := Finset.mem_filter.mp h
    have h2 := Finset.mem_product.mp h1.1
    exact ⟨h2.1, h2.2, h1.2⟩
  · rintro ⟨hp, hq, hm⟩
    exact Finset.mem_filter.mpr ⟨Finset.mem_product.mpr ⟨hp, hq⟩, hm⟩

theorem mux_irrefl (n : Nat) (p : Literal) : (p, p) ∉ (levelAt P n).mux := by
  intro h
  cases n with
  | zero =>
    rcases (mem_mux_zero P).mp h with ⟨-, -, hc⟩
    rw [complementary_self] at hc
    cases hc
  | succ n =>
    rcases (mem_mux_next P).mp h with ⟨-, -, hm⟩
    exact ((litMutexNext_iff _ _ _ _).mp hm).1 rfl

theorem noop_mem_actionLayerAt {n : Nat} {l : Literal}
    (h : l ∈ (levelAt P n).lits) : noop l ∈ actionLayerAt P n := by
  rw [actionLayerAt, mem_actionLayer]
  refine ⟨Or.inr ⟨l, h, rfl⟩, (preOK_iff _ _).mpr ⟨?_, ?_⟩⟩
  · intro x hx
    rw [show (noop l).precond_pos = {l} from rfl, Finset.mem_singleton] at hx
    subst hx
    exact h
  · intro p hp q hq
    rw [show (noop l).precond_pos = {l} from rfl, Finset.mem_singleton] at hp hq
    subst hp
    subst hq
    exact mux_irrefl P n _

theorem actMutex_noop {m : Finset (Literal × Literal)} {p q : Literal}
    (h : actMutex m (noop p) (noop q) = true) : (p, q) ∈ m := by
  by_cases hcn : competingNeeds m (noop p) (noop q) = true
  · unfold competingNeeds at hcn
    rcases of_decide_eq_true hcn with ⟨x, hx, y, hy, hmem⟩
    rw [show (noop p).precond_pos = {p} from rfl, Finset.mem_singleton] at hx
    rw [show (noop q).precond_pos = {q} from rfl, Finset.mem_singleton] at hy
    subst hx
    subst hy
    exact hmem
  · exfalso
    have h1 : inconsistentEffects (noop p) (noop q) = false := by
      simp [inconsistentEffects, noop]
    have h2 : interference (noop p) (noop q) = false := by
      simp [interference, noop]
    have h3 : competingNeeds m (noop p) (noop q) = false := by
      cases hb : competingNeeds m (noop p) (noop q)
      · rfl
      · exact absurd hb hcn
    unfold actMutex at h
    rw [h1, h2, h3] at h
    simp at h

theorem lits_mono_succ (n : Nat) :
    (levelAt P n).lits ⊆ (levelAt P (n + 1)).lits := by
  intro l hl
  exact (mem_lits_next P).mpr
    ⟨noop l, noop_mem_actionLayerAt P hl, Finset.mem_singleton_self l⟩

theorem compl_mem_mux {n : Nat} {p q : Literal} (hp : p ∈ (levelAt P n).lits)
    (hq : q ∈ (levelAt P n).lits) (hc : complementary p q = true) :
    (p, q) ∈ (levelAt P n).mux := by
  cases n with
  | zero => exact (mem_mux_zero P).mpr ⟨hp, hq, hc⟩
  | succ n =>
    exact (mem_mux_next P).mpr
      ⟨hp, hq, (litMutexNext_iff _ _ _ _).mpr ⟨complementary_ne hc, Or.inl hc⟩⟩

theorem mux_decrease {n : Nat} {p q : Literal} (hp : p ∈ (levelAt P n).lits)
    (hq : q ∈ (levelAt P n).lits) (hnm : (p, q) ∉ (levelAt P n).mux) :
    (p, q) ∉ (levelAt P (n + 1)).mux := by
  intro h
  rcases (mem_mux_next P).mp h with ⟨-, -, hm⟩
  rcases (litMutexNext_iff _ _ _ _).mp hm with ⟨hne, hor⟩
  rcases hor with hc | hall
  · exact hnm (compl_mem_mux P hp hq hc)
  · have hmx := hall (noop p) (noop_mem_actionLayerAt P hp)
      (Finset.mem_singleton_self p) (noop q) (noop_mem_actionLayerAt P hq)
      (Finset.mem_singleton_self q)
    exact hnm (actMutex_noop hmx)

theorem layer_mono_succ (n : Nat) :
    actionLayerAt P n ⊆ actionLayerAt P (n + 1) := by
  intro a ha
  rcases (mem_actionLayer P).mp ha with ⟨hsrc, hpre⟩
  rcases (preOK_iff _ _).mp hpre with ⟨hsub, hpairs⟩
  refine (mem_actionLayer P).mpr
    ⟨?_, (preOK_iff _ _).mpr ⟨fun x hx => lits_mono_succ P n (hsub hx), ?_⟩⟩
  · rcases hsrc with h | ⟨l, hl, rfl⟩
    · exact Or.inl h
    · exact Or.inr ⟨l, lits_mono_succ P n hl, rfl⟩
  · intro p hp q hq
    exact mux_decrease P (hsub hp) (hsub hq) (hpairs p hp q hq)

theorem lits_mono {i j : Nat} (h : i ≤ j) :
    (levelAt P i).lits ⊆ (levelAt P j).lits := by
  obtain ⟨d, rfl⟩ := Nat.exists_eq_add_of_le h
  clear h
  induction d with
  | zero => exact Finset.Subset.refl _
  | succ d ih => exact Finset.Subset.trans ih (lits_mono_succ P (i + d))

theorem layer_mono {i j : Nat} (h : i ≤ j) :
    actionLayerAt P i ⊆ actionLayerAt P j := by
  obtain ⟨d, rfl⟩ := Nat.exists_eq_add_of_le h
  clear h
  induction d with
  | zero => exact Finset.Subset.refl _
  | succ d ih => exact Finset.Subset.trans ih (layer_mono_succ P (i + d))

theorem inconsistentEffects_comm (a b : Action) :
    inconsistentEffects a b = inconsistentEffects b a := by
  unfold inconsistentEffects
  exact Bool.or_comm _ _

theorem interference_comm (a b : Action) :
    interference a b = interference b a := by
  unfold interference
  exact Bool.or_comm _ _

theorem competingNeeds_comm {m : Finset (Literal × Literal)}
    (hm : ∀ x y : Literal, (x, y) ∈ m ↔ (y, x) ∈ m) (a b : Action) :
    competingNeeds m a b = competingNeeds m b a := by
  unfold competingNeeds
  rw [decide_eq_decide]
  constructor <;> rintro ⟨x, hx, y, hy, hxy⟩ <;> exact ⟨y, hy, x, hx, (hm x y).mp hxy⟩

theorem actMutex_comm {m : Finset (Literal × Literal)}
    (hm : ∀ x y : Literal, (x, y) ∈ m ↔ (y, x) ∈ m) (a b : Action) :
    actMutex m a b = actMutex m b a := by
  unfold actMutex
  rw [inconsistentEffects_comm a b, interference_comm a b, competingNeeds_comm hm a b]
  have hne : (decide (a ≠ b)) = (decide (b ≠ a)) := by
    rw [decide_eq_decide]
    exact ne_comm
  rw [hne]

theorem litMutexNext_comm {A : Finset Action} {m : Finset (Literal × Literal)}
    (hm : ∀ x y : Literal, (x, y) ∈ m ↔ (y, x) ∈ m) (p q : Literal) :
    litMutexNext A m p q = litMutexNext A m q p := by
  unfold litMutexNext
  rw [complementary_comm p q]
  have h1 : (decide (p ≠ q)) = (decide (q ≠ p)) := by
    rw [decide_eq_decide]
    exact ne_comm
  have h2 : (decide (∀ a ∈ A, p ∈ a.effect_add → ∀ b ∈ A, q ∈ b.effect_add →
        actMutex m a b = true)) =
      (decide (∀ a ∈ A, q ∈ a.effect_add → ∀ b ∈ A, p ∈ b.effect_add →
        actMutex m a b = true)) := by
    rw [decide_eq_decide]
    constructor
    · intro hall a ha hqa b hb hpb
      have hba := hall b hb hpb a ha hqa
      rw [actMutex_comm hm b a] at hba
      exact hba
    · intro hall a ha hpa b hb hqb
      have hba := hall b hb hqb a ha hpa
      rw [actMutex_comm hm b a] at hba
      exact hba
  rw [h1, h2]

theorem mux_symm (n : Nat) (p q : Literal) :
    (p, q) ∈ (levelAt P n).mux ↔ (q, p) ∈ (levelAt P n).mux := by
  induction n generalizing p q with
  | zero =>
    constructor
    all_goals intro h
    all_goals rcases (mem_mux_zero P).mp h with ⟨h1, h2, h3⟩
    all_goals refine (mem_mux_zero P).mpr ⟨h2, h1, ?_⟩
    all_goals rw [complementary_comm]
    all_goals exact h3
  | succ n ih =>
    constructor
    all_goals intro h
    all_goals rcases (mem_mux_next P).mp h with ⟨h1, h2, h3⟩
    all_goals refine (mem_mux_next P).mpr ⟨h2, h1, ?_⟩
    all_goals rw [litMutexNext_comm ih]
    all_goals exact h3

theorem effect_add_subset_fold {a : Action} :
    ∀ l : List Action, a ∈ l →
      a.effect_add ⊆ List.foldr (fun a s => a.effect_add ∪ s) ∅ l := by
  intro l
  induction l with
  | nil => intro h; cases h
  | cons x xs ih =>
    intro h
    rcases List.mem_cons.mp h with rfl | hmem
    · exact Finset.subset_union_left
    · exact (ih hmem).trans Finset.subset_union_right

theorem lits_subset_Ulits (n : Nat) : (levelAt P n).lits ⊆ Ulits P := by
  induction n with
  | zero => exact Finset.subset_union_left
  | succ n ih =>
    intro l hl
    rcases (mem_lits_next P).mp hl with ⟨a, ha, hla⟩
    rcases (mem_actionLayer P).mp ha with ⟨hsrc, -⟩
    rcases hsrc with hmem | ⟨x, hx, rfl⟩
    · exact Finset.mem_union_right _ (effect_add_subset_fold P.actions hmem hla)
    · rw [show (noop x).effect_add = {x} from rfl, Finset.mem_singleton] at hla
      subst hla
      exact ih hx

theorem lits_card_growth :
    ∀ k : Nat, (∀ i, i < k → (levelAt P i).lits ≠ (levelAt P (i + 1)).lits) →
      k ≤ ((levelAt P k).lits).card := by
  intro k
  induction k with
  | zero => intro _; exact Nat.zero_le _
  | succ k ih =>
    intro h
    have hk := ih (fun i hi => h i (Nat.lt_succ_of_lt hi))
    have hss : (levelAt P k).lits ⊂ (levelAt P (k + 1)).lits :=
      (lits_mono_succ P k).ssubset_of_ne (h k (Nat.lt_succ_self k))
    have := Finset.card_lt_card hss
    omega

theorem lits_stabilize :
    ∃ n ≤ (Ulits P).card, (levelAt P n).lits = (levelAt P (n + 1)).lits := by
  by_contra hcon
  push_neg at hcon
  have hb := lits_card_growth P ((Ulits P).card + 1)
    (fun i hi => hcon i (Nat.lt_succ_iff.mp hi))
  have hle : ((levelAt P ((Ulits P).card + 1)).lits).card ≤ (Ulits P).card :=
    Finset.card_le_card (lits_subset_Ulits P _)
  omega

theorem mux_subset_square (n : Nat) :
    (levelAt P n).mux ⊆ (levelAt P n).lits ×ˢ (levelAt P n).lits := by
  cases n with
  | zero => exact Finset.filter_subset _ _
  | succ n => exact Finset.filter_subset _ _

theorem nonMux_mono_succ (n : Nat) : nonMux P n ⊆ nonMux P (n + 1) := by
  intro x hx
  simp only [nonMux, Finset.mem_sdiff, Finset.mem_product] at hx ⊢
  rcases hx with ⟨⟨hp, hq⟩, hnm⟩
  refine ⟨⟨lits_mono_succ P n hp, lits_mono_succ P n hq⟩, ?_⟩
  have := mux_decrease (P := P) (p := x.1) (q := x.2) hp hq
  intro hmem
  exact this hnm hmem

theorem mux_eq_square_sdiff_nonMux (n : Nat) :
    (levelAt P n).mux =
      ((levelAt P n).lits ×ˢ (levelAt P n).lits) \ nonMux P n := by
  rw [nonMux, sdiff_sdiff_right_self]
  exact (inf_eq_right.mpr (mux_subset_square P n)).symm

theorem measure_lt (n : Nat) (h : levelAt P (n + 1) ≠ levelAt P n) :
    ((levelAt P n).lits).card + (nonMux P n).card <
      ((levelAt P (n + 1)).lits).card + (nonMux P (n + 1)).card := by
  by_cases hl : (levelAt P n).lits = (levelAt P (n + 1)).lits
  · have hmux : (levelAt P n).mux ≠ (levelAt P (n + 1)).mux := by
      intro hmx
      exact h (GLevel.ext hl.symm hmx.symm)
    have hnm : nonMux P n ≠ nonMux P (n + 1) := by
      intro hq
      apply hmux
      rw [mux_eq_square_sdiff_nonMux P n, mux_eq_square_sdiff_nonMux P (n + 1),
        ← hl, ← hq]
    have hss : nonMux P n ⊂ nonMux P (n + 1) :=
      (nonMux_mono_succ P n).ssubset_of_ne hnm
    have h1 := Finset.card_lt_card hss
    have h2 : ((levelAt P n).lits).card = ((levelAt P (n + 1)).lits).card := by
      rw [hl]
    omega
  · have hss : (levelAt P n).lits ⊂ (levelAt P (n + 1)).lits :=
      (lits_mono_succ P n).ssubset_of_ne hl
    have h1 := Finset.card_lt_card hss
    have h2 := Finset.card_le_card (nonMux_mono_succ P n)
    omega

theorem measure_le (n : Nat) :
    ((levelAt P n).lits).card + (nonMux P n).card ≤
      (Ulits P).card + (Ulits P).card * (Ulits P).card := by
  have h1 : ((levelAt P n).lits).card ≤ (Ulits P).card :=
    Finset.card_le_card (lits_subset_Ulits P n)
  have h2 : (nonMux P n).card ≤ (Ulits P).card * (Ulits P).card := by
    have hsub : nonMux P n ⊆ Ulits P ×ˢ Ulits P := by
      intro x hx
      simp only [nonMux, Finset.mem_sdiff] at hx
      exact Finset.product_subset_product (lits_subset_Ulits P n)
        (lits_subset_Ulits P n) hx.1
    calc (nonMux P n).card ≤ (Ulits P ×ˢ Ulits P).card := Finset.card_le_card hsub
      _ = (Ulits P).card * (Ulits P).card := Finset.card_product _ _
  omega

theorem measure_growth :
    ∀ k : Nat, (∀ i, i < k → levelAt P (i + 1) ≠ levelAt P i) →
      k ≤ ((levelAt P k).lits).card + (nonMux P k).card := by
  intro k
  induction k with
  | zero => intro _; exact Nat.zero_le _
  | succ k ih =>
    intro h
    have hk := ih (fun i hi => h i (Nat.lt_succ_of_lt hi))
    have := measure_lt P k (h k (Nat.lt_succ_self k))
    omega

theorem leveledOff_exists :
    ∃ n ≤ (Ulits P).card + (Ulits P).card * (Ulits P).card, leveledOff P n := by
  by_contra hcon
  push_neg at hcon
  have hb := measure_growth P
    ((Ulits P).card + (Ulits P).card * (Ulits P).card + 1)
    (fun i hi => hcon i (Nat.lt_succ_iff.mp hi))
  have := measure_le P ((Ulits P).card + (Ulits P).card * (Ulits P).card + 1)
  omega

theorem goal_unreachable {g : Literal} (h0 : g ∉ P.initial)
    (hadd : ∀ a ∈ P.actions, g ∉ a.effect_add) :
    ∀ n, g ∉ (levelAt P n).lits := by
  intro n
  induction n with
  | zero => exact h0
  | succ n ih =>
    intro hg
    rcases (mem_lits_next P).mp hg with ⟨a, ha, hga⟩
    rcases (mem_actionLayer P).mp ha with ⟨hsrc, -⟩
    rcases hsrc with hmem | ⟨x, hx, rfl⟩
    · exact hadd a hmem hga
    · rw [show (noop x).effect_add = {x} from rfl, Finset.mem_singleton] at hga
      subst hga
      exact ih hx

theorem scanGoal_eq_none (h : ∀ k, goalSat P (levelAt P k) = false) :
    ∀ fuel k, scanGoal P k fuel = none := by
  intro fuel
  induction fuel with
  | zero => intro k; simp [scanGoal, h k]
  | succ fuel ih =>
    intro k
    simp only [scanGoal, h k]
    simpa using ih (k + 1)

theorem plan_unsolvable {g : Literal} (hg : g ∈ P.goal_pos) (h0 : g ∉ P.initial)
    (hadd : ∀ a ∈ P.actions, g ∉ a.effect_add) : plan P = none := by
  have hsat : ∀ k, goalSat P (levelAt P k) = false := by
    intro k
    have hns : ¬ P.goal_pos ⊆ (levelAt P k).lits := fun hsub =>
      goal_unreachable P h0 hadd k (hsub hg)
    simp [goalSat, hns]
  unfold plan
  rw [scanGoal_eq_none P hsat (buildFuel P) 0]

end GraphLemmas

section Extraction

theorem firstSome_eq_some {α β : Type} (f : α → Option β) :
    ∀ (l : List α) (y : β), firstSome f l = some y → ∃ x ∈ l, f x = some y := by
  intro l
  induction l with
  | nil => intro y h; simp [firstSome] at h
  | cons x xs ih =>
    intro y h
    cases hfx : f x with
    | some z =>
      simp only [firstSome, hfx] at h
      exact ⟨x, List.mem_cons_self x xs, by rw [hfx, h]⟩
    | none =>
      simp only [firstSome, hfx] at h
      obtain ⟨w, hw, hfw⟩ := ih y h
      exact ⟨w, List.mem_cons_of_mem x hw, hfw⟩

theorem dfs_sound (P : Problem) :
    ∀ (fuel : Nat) (s : Finset Literal) (seq : List Action),
      dfs P fuel s = some seq → execGoal P (execSeq s seq) = true := by
  intro fuel
  induction fuel with
  | zero =>
    intro s seq h
    by_cases hg : goal_test P s = true
    · simp only [dfs, hg, if_true] at h
      obtain rfl : ([] : List Action) = seq := by simpa using h
      simp [execSeq, execGoal, hg]
    · simp only [dfs, if_neg hg] at h
      cases h
  | succ fuel ih =>
    intro s seq h
    by_cases hg : goal_test P s = true
    · simp only [dfs, hg, if_true] at h
      obtain rfl : ([] : List Action) = seq := by simpa using h
      simp [execSeq, execGoal, hg]
    · simp only [dfs, if_neg hg] at h
      obtain ⟨a, ha, hfa⟩ := firstSome_eq_some _ P.actions seq h
      by_cases happ : is_applicable s a = true
      · rw [if_pos happ] at hfa
        rcases Option.map_eq_some'.mp hfa with ⟨seq', hseq', rfl⟩
        have hgoal := ih (applyEffect s a) seq' hseq'
        rw [show execSeq s (a :: seq') = execSeq (applyEffect s a) seq' from by
          simp [execSeq, applyA, happ]]
        exact hgoal
      · rw [if_neg happ] at hfa
        cases hfa

end Extraction

/-- C1: if `plan` returns an action sequence, then executing that sequence
from the problem's initial state raises no `InapplicableActionError` and the
final state satisfies `goal_test`; moreover `plan` is deterministic — any
result of `plan` on the same problem is that same sequence. -/
theorem plan_correct (P : Problem) (seq : List Action) (r : Option (List Action))
    (h : plan P = some seq) (hr : plan P = r) :
    execGoal P (execSeq P.initial seq) = true ∧ r = some seq := by
  constructor
  · unfold plan at h
    cases hscan : scanGoal P 0 (buildFuel P) with
    | none => rw [hscan] at h; cases h
    | some n =>
      rw [hscan] at h
      exact dfs_sound P _ _ _ h
  · rw [← hr, h]

/-- Witness for C1: `plan` on the spare-tire problem returns the three-step
plan, whose execution from the initial state reaches the goal. -/
theorem plan_correct_witness :
    execGoal spareTire (execSeq spareTire.initial spareSolution) = true ∧
      some spareSolution = some spareSolution :=
  plan_correct spareTire spareSolution (some spareSolution) (by decide) (by decide)

/-- C5: the planning-graph builder terminates — every state layer lives in
the finite universe of reachable ground literals, the state layers stop
growing within that universe's size, the builder reaches goal-satisfaction
or a leveled-off level within its (universe-derived) level bound, and on an
unsolvable problem whose goal literal is never an add-effect, `plan` returns
`PlanNotFound` (here `none`) instead of looping forever. -/
theorem builder_terminates (P : Problem) (g : Literal) :
    (∀ n, (levelAt P n).lits ⊆ Ulits P) ∧
      (∃ n ≤ (Ulits P).card, (levelAt P n).lits = (levelAt P (n + 1)).lits) ∧
      (∃ n ≤ buildFuel P, goalSat P (levelAt P n) = true ∨ leveledOff P n) ∧
      (g ∈ P.goal_pos → g ∉ P.initial →
        (∀ a ∈ P.actions, g ∉ a.effect_add) → plan P = none) := by
  refine ⟨lits_subset_Ulits P, lits_stabilize P, ?_,
    fun h1 h2 h3 => plan_unsolvable P h1 h2 h3⟩
  obtain ⟨n, hn, he⟩ := leveledOff_exists P
  exact ⟨n, Nat.le_succ_of_le hn, Or.inr he⟩

/-- Witness for C5: a problem whose goal literal `G` is not initial and is
never produced ends in `PlanNotFound`. -/
theorem builder_terminates_witness : plan unsolvable = none :=
  (builder_terminates unsolvable (lit "G" [])).2.2.2 (by decide) (by decide)
    (by decide)

/-- C6: planning-graph growth is monotonic — every literal of a state layer
is present in all later state layers and every action of an action layer is
present in all later action layers. -/
theorem graph_monotone (P : Problem) (i j : Nat) (h : i ≤ j) :
    (levelAt P i).lits ⊆ (levelAt P j).lits ∧
      actionLayerAt P i ⊆ actionLayerAt P j :=
  ⟨lits_mono P h, layer_mono P h⟩

/-- Witness for C6 at levels 1 and 2 of the spare-tire graph. -/
theorem graph_monotone_witness :
    (levelAt spareTire 1).lits ⊆ (levelAt spareTire 2).lits ∧
      actionLayerAt spareTire 1 ⊆ actionLayerAt spareTire 2 :=
  graph_monotone spareTire 1 2 (by decide)

/-- C7: at every level the mutex relation is symmetric, both between
literals and between actions, and two actions are mutex exactly when they
are distinct and have inconsistent effects, interfere, or have competing
needs. -/
theorem mutex_symmetric (P : Problem) (n : Nat) (p q : Literal) (a b : Action) :
    ((p, q) ∈ (levelAt P n).mux ↔ (q, p) ∈ (levelAt P n).mux) ∧
      actMutex (levelAt P n).mux a b = actMutex (levelAt P n).mux b a ∧
      (actMutex (levelAt P n).mux a b = true ↔
        (a ≠ b ∧ (inconsistentEffects a b = true ∨ interference a b = true ∨
          competingNeeds (levelAt P n).mux a b = true))) := by
  refine ⟨mux_symm P n p q, actMutex_comm (mux_symm P n) a b, ?_⟩
  simp [actMutex, Bool.and_eq_true, Bool.or_eq_true, or_assoc]

/-- C2: for an applicable ground action, `apply` returns the state
`(S − effect_rem) ∪ effect_add` (membership in the result is: was in `S` and
not deleted, or added); the original state is a value the application never
mutates — in this functional embedding `apply` only constructs a new set. -/
theorem apply_effect_correct (s : Finset Literal) (a : Action) (l : Literal)
    (h : is_applicable s a = true) :
    applyA s a = .ok ((s \ a.effect_rem) ∪ a.effect_add) ∧
      (l ∈ (s \ a.effect_rem) ∪ a.effect_add ↔
        (l ∈ s ∧ l ∉ a.effect_rem) ∨ l ∈ a.effect_add) := by
  refine ⟨applyA_of_applicable s a h, ?_⟩
  exact mem_applyEffect s a l

/-- C3: `is_applicable(state, action)` is true iff every positive
precondition literal is a member of the state and no negative precondition
literal is a member of the state; the check is a pure function. -/
theorem is_applicable_correct (s : Finset Literal) (a : Action) :
    is_applicable s a = true ↔
      ((∀ l ∈ a.precond_pos, l ∈ s) ∧ (∀ l ∈ a.precond_neg, l ∉ s)) :=
  is_applicable_iff s a

/-- C4: `apply` signals `InapplicableActionError` exactly when
`is_applicable` is false, and when the head of a sequence is inapplicable the
error propagates uncaught through sequential execution; the given state value
is untouched (no partial effects exist in the failing branch). -/
theorem apply_error_correct (s : Finset Literal) (a : Action) (rest : List Action) :
    (applyA s a = .error .inapplicable ↔ is_applicable s a = false) ∧
      (is_applicable s a = false → execSeq s (a :: rest) = .error .inapplicable) :=
  ⟨applyA_error_iff s a, execSeq_error_head s a rest⟩

/-- Witness for C2 at the spare-tire problem's first action. -/
theorem apply_effect_correct_witness :
    applyA {flatAxle, spareTrunk} removeFlat =
      .ok (({flatAxle, spareTrunk} \ removeFlat.effect_rem) ∪ removeFlat.effect_add) ∧
      (flatGround ∈ ({flatAxle, spareTrunk} \ removeFlat.effect_rem) ∪ removeFlat.effect_add ↔
        (flatGround ∈ ({flatAxle, spareTrunk} : Finset Literal) ∧
          flatGround ∉ removeFlat.effect_rem) ∨ flatGround ∈ removeFlat.effect_add) :=
  apply_effect_correct {flatAxle, spareTrunk} removeFlat flatGround (by decide)

/-- Witness for C4: `PutOn(Spare,Axle)` is inapplicable in the spare-tire
initial state, so `apply` fails there and the error propagates. -/
theorem apply_error_correct_witness :
    (applyA {flatAxle, spareTrunk} putOnSpare = .error .inapplicable ↔
      is_applicable {flatAxle, spareTrunk} putOnSpare = false) ∧
      execSeq {flatAxle, spareTrunk} [putOnSpare] = .error .inapplicable :=
  ⟨(apply_error_correct {flatAxle, spareTrunk} putOnSpare []).1,
   (apply_error_correct {flatAxle, spareTrunk} putOnSpare []).2 (by decide)⟩

/-- C8: in the spare-tire problem the goal fails in the initial state;
applying `Remove(Flat,Axle)`, `Remove(Spare,Trunk)`, `PutOn(Spare,Axle)` in
order succeeds and reaches a goal state, the two `Remove` actions may be
interchanged with the same outcome, and this three-action sequence is
exactly the plan the planner produces. -/
theorem spare_tire_three_action_plan :
    goal_test spareTire spareTire.initial = false ∧
      execSeq spareTire.initial spareSolution = .ok {flatGround, spareAxle} ∧
      goal_test spareTire {flatGround, spareAxle} = true ∧
      execSeq spareTire.initial [removeSpare, removeFlat, putOnSpare] =
        .ok {flatGround, spareAxle} ∧
      plan spareTire = some spareSolution := by
  refine ⟨by decide, by decide, by decide, by decide, by decide⟩

/-- C9: the air-cargo object does not satisfy its goal initially; acting on
the six ground actions `Load(C1,P1,SFO)`, `Fly(P1,SFO,JFK)`,
`Unload(C1,P1,JFK)`, `Load(C2,P2,JFK)`, `Fly(P2,JFK,SFO)`,
`Unload(C2,P2,SFO)` in order succeeds at every step and afterwards
`goal_test()` returns true. -/
theorem air_cargo_solution_reaches_goal :
    airCargoObj.goalTest = false ∧
      actSeq airCargoObj airCargoSolution =
        .ok { airCargoObj with kb := {p1JFK, c1JFK, p2SFO, c2SFO} } ∧
      PDDL.goalTest { airCargoObj with kb := {p1JFK, c1JFK, p2SFO, c2SFO} } = true := by
  refine ⟨by decide, by decide, by decide⟩

/-- C10: `act` is stateful at the object interface — each `act` stores the
new knowledge base back into the problem object, so the later `goal_test()`
call on the same object observes the accumulated effects of all previously
applied actions: it flips from false before the sequence to true after it,
and the object's knowledge base really changed. -/
theorem act_updates_object_state :
    spareTireObj.goalTest = false ∧
      actSeq spareTireObj spareSolution =
        .ok { spareTireObj with kb := {flatGround, spareAxle} } ∧
      PDDL.goalTest { spareTireObj with kb := {flatGround, spareAxle} } = true ∧
      ({flatGround, spareAxle} : Finset Literal) ≠ spareTireObj.kb := by
  refine ⟨by decide, by decide, by decide, by decide⟩

end Planning
